import Mathlib

/-
Shallow embedding of the libp2p-messaging crate (Router = `Behaviour`,
per-connection `Handler`, and the two wire codecs) together with proofs of
the specification claims.

Conventions of the embedding:
* `PeerId`, `ConnectionId`, `Multiaddr` and the protocol identifier are
  opaque in the source; they are embedded as `Nat`.
* `MessageId` is a Rust `u64`; it is embedded as `Nat` with the wrap-around
  of `wrapping_add` made explicit as reduction modulo `2 ^ 64`.
* Rust `HashMap` fields are embedded as association lists (`List (Nat x V)`)
  whose operations act on the first matching key, and Rust `HashSet` fields
  as duplicate-free lists with an insert-if-absent operation; a real
  `HashMap`/`HashSet` has unique keys, which theorems take as a `Nodup`
  hypothesis where it matters.
* `VecDeque`/`SmallVec` fields are plain lists: `push_back` appends at the
  end, `pop_front` takes the head.
* Code that can panic (`.expect`) is embedded as an `Option`-returning
  function, `none` meaning the panic.
* Byte streams are lists of byte values (`Nat`, each below 256); the async
  readers/writers of the codecs become pure functions over those lists, and
  the pluggable serializer (`bincode::decode_from_slice`, prost
  `Message::decode`) becomes an explicit function parameter returning the
  decoded value and the number of bytes consumed.
-/

namespace LibP2PMessaging

abbrev PeerId := Nat
abbrev ConnectionId := Nat
abbrev Multiaddr := Nat
abbrev MessageId := Nat

/-- Modulus of the Rust `u64` message-id counter. -/
def U64_MOD : Nat := 2 ^ 64

/-- From `behaviour.rs`: threshold above which a drained queue releases its
reserved capacity. Capacity is a memory-layout detail and is otherwise not
modelled. -/
def EMPTY_QUEUE_SHRINK_THRESHOLD : Nat := 100

/-- From `codecs/prost.rs` and `codecs/bincode.rs`: `MAX_MESSAGE_SIZE`. -/
def MAX_MESSAGE_SIZE : Nat := 4 * 1024 * 1024

/-- The error taxonomy (`error.rs`, together with the variants used by
`behaviour.rs` and `handler.rs`). Payloads are dropped: they are opaque to
every claim. -/
inductive Error where
  | CodecError
  | ConnectionClosed
  | Timeout
  | DialFailure
  | DialUpgradeError
  | ProtocolNotSupported
  | ChannelClosed
deriving DecidableEq, Repr

/-- An outbound message as created by `Behaviour::send_message`. -/
structure OutboundMessage (Msg : Type) where
  peer_id : PeerId
  message_id : MessageId
  message : Msg
deriving DecidableEq, Repr

/-- The events the behaviour emits to the application
(the `Event` enum as used by `behaviour.rs` and `handler.rs`). -/
inductive Event (Msg : Type) where
  | ReceivedMessage (peer_id : PeerId) (message : Msg)
  | MessageSent (message_id : MessageId)
  | InboundFailure (peer_id : PeerId) (message_id : MessageId) (error : Error)
  | OutboundFailure (peer_id : PeerId) (message_id : MessageId) (error : Error)
  | Err (error : Error)
deriving DecidableEq, Repr

/-- The actions the behaviour queues for the swarm
(the `ToSwarm` variants used in `behaviour.rs`). -/
inductive ToSwarm (Msg : Type) where
  | GenerateEvent (event : Event Msg)
  | Dial (peer_id : PeerId)
  | NotifyHandler (peer_id : PeerId) (connection_id : ConnectionId)
      (event : OutboundMessage Msg)
deriving DecidableEq, Repr

/-- Internal information tracked for an established connection
(`Connection` in `behaviour.rs`). `pending_messages` is a `HashSet` in the
source, embedded as a duplicate-free list. -/
structure Connection where
  id : ConnectionId
  remote_address : Option Multiaddr
  pending_messages : List MessageId
deriving DecidableEq, Repr

/-- `Connection::new`. -/
def Connection.new (id : ConnectionId) (remote_address : Option Multiaddr) :
    Connection :=
  { id := id, remote_address := remote_address, pending_messages := [] }

/-- `HashSet::insert`: adds the element unless already present. -/
def hsInsert (x : Nat) (s : List Nat) : List Nat :=
  if x ∈ s then s else s ++ [x]

/-- `HashMap::get`: value of the first entry with the given key. -/
def alGet {V : Type} (l : List (Nat × V)) (k : Nat) : Option V :=
  match l with
  | [] => none
  | (k', v) :: rest => if k' = k then some v else alGet rest k

/-- Replace the value of the first entry with the given key
(assignment through `HashMap::get_mut`). Absent keys are left alone. -/
def alSet {V : Type} (l : List (Nat × V)) (k : Nat) (v : V) : List (Nat × V) :=
  match l with
  | [] => []
  | (k', w) :: rest => if k' = k then (k, v) :: rest else (k', w) :: alSet rest k v

/-- `HashMap::entry(k).or_default()` followed by an in-place update `f`:
apply `f` to the existing value, or to the default `d` for a fresh entry. -/
def alUpdate {V : Type} (l : List (Nat × V)) (k : Nat) (f : V → V) (d : V) :
    List (Nat × V) :=
  match l with
  | [] => [(k, f d)]
  | (k', v) :: rest => if k' = k then (k, f v) :: rest else (k', v) :: alUpdate rest k f d

/-- `HashMap::remove`: the removed value, if any, and the remaining map. -/
def alRemove {V : Type} (l : List (Nat × V)) (k : Nat) :
    Option V × List (Nat × V) :=
  match l with
  | [] => (none, [])
  | (k', v) :: rest =>
    if k' = k then (some v, rest)
    else
      let r := alRemove rest k
      (r.1, (k', v) :: r.2)

/-- `Config` (`config.rs`); the timeout duration is opaque to the claims and
kept as a plain number of seconds. -/
structure Config where
  max_concurrent_streams : Nat
  send_recv_timeout : Nat
deriving DecidableEq, Repr

/-- `Config::default`. -/
def Config.default : Config :=
  { max_concurrent_streams := 3, send_recv_timeout := 10 }

/-- A task spawned into the bounded `FuturesSet` of a handler: an encode
task for a dispatched outbound message, or a decode task for an inbound
substream. Execution of the task body is asynchronous and outside the
embedding; only which task was spawned is recorded. -/
inductive HandlerTask (Msg : Type) where
  | encodeTask (message_id : MessageId) (message : Msg)
  | decodeTask
deriving DecidableEq, Repr

/-- The per-connection handler state (`handler.rs`). The `FuturesSet` is
embedded as the list of spawned tasks plus its capacity bound. -/
structure Handler (Msg : Type) where
  peer_id : PeerId
  protocol : Nat
  requested_outbound : List (OutboundMessage Msg)
  pending_outbound : List (OutboundMessage Msg)
  pending_events : List (Event Msg)
  tasks : List (HandlerTask Msg)
  max_concurrent_streams : Nat
deriving DecidableEq, Repr

/-- `Handler::new`. -/
def Handler.new {Msg : Type} (peer_id : PeerId) (protocol : Nat)
    (config : Config) : Handler Msg :=
  { peer_id := peer_id
    protocol := protocol
    requested_outbound := []
    pending_outbound := []
    pending_events := []
    tasks := []
    max_concurrent_streams := config.max_concurrent_streams }

/-- `Handler::on_behaviour_event`: push the message onto the back of the
pending-outbound queue. -/
def Handler.on_behaviour_event {Msg : Type} (h : Handler Msg)
    (msg : OutboundMessage Msg) : Handler Msg :=
  { h with pending_outbound := h.pending_outbound ++ [msg] }

/-- The error kinds of `StreamUpgradeError` as matched by
`Handler::on_dial_upgrade_error`. -/
inductive StreamUpgradeError where
  | Timeout
  | NegotiationFailed
  | Apply
  | Io
deriving DecidableEq, Repr

/-- `Handler::on_dial_upgrade_error`: pop the correlated message from the
front of `requested_outbound` (`.expect` panics when empty, hence `Option`)
and classify the error. A transient I/O error re-queues the message at the
back of `requested_outbound`. -/
def Handler.on_dial_upgrade_error {Msg : Type} (h : Handler Msg)
    (error : StreamUpgradeError) : Option (Handler Msg) :=
  match h.requested_outbound with
  | [] => none
  | message :: rest =>
    let h := { h with requested_outbound := rest }
    some (match error with
      | .Timeout =>
        { h with pending_events := h.pending_events ++
            [Event.OutboundFailure h.peer_id message.message_id Error.DialUpgradeError] }
      | .NegotiationFailed =>
        { h with pending_events := h.pending_events ++
            [Event.OutboundFailure h.peer_id message.message_id Error.ProtocolNotSupported] }
      | .Apply => h
      | .Io =>
        { h with requested_outbound := h.requested_outbound ++ [message] })

/-- `Handler::on_fully_negotiated_outbound`: pop the correlated message from
the front of `requested_outbound` (`.expect` panics when empty) and try to
spawn the encode task; at capacity the task is dropped with only a warning. -/
def Handler.on_fully_negotiated_outbound {Msg : Type} (h : Handler Msg) :
    Option (Handler Msg) :=
  match h.requested_outbound with
  | [] => none
  | message :: rest =>
    let h := { h with requested_outbound := rest }
    some (if h.tasks.length < h.max_concurrent_streams then
      { h with tasks := h.tasks ++ [HandlerTask.encodeTask message.message_id message.message] }
    else h)

/-- `Handler::on_fully_negotiated_inbound`: try to spawn a decode task. -/
def Handler.on_fully_negotiated_inbound {Msg : Type} (h : Handler Msg) :
    Handler Msg :=
  if h.tasks.length < h.max_concurrent_streams then
    { h with tasks := h.tasks ++ [HandlerTask.decodeTask] }
  else h

/-- Outcome of polling the bounded task set inside `Handler::poll`:
some completed task yielded an event, some task hit its deadline, or no
task is ready. Task completion is driven by the async runtime, so it enters
the embedding as an oracle argument to `poll`. -/
inductive TaskPoll (Msg : Type) where
  | readyOk (event : Event Msg)
  | readyErr
  | pending
deriving DecidableEq, Repr

/-- What one call of `Handler::poll` returns to the swarm. -/
inductive HandlerPoll (Msg : Type) where
  | NotifyBehaviour (event : Event Msg)
  | OutboundSubstreamRequest
  | Pending
deriving DecidableEq, Repr

/-- `Handler::poll`: completed tasks first, then drained pending events,
then — only when both yield nothing — the front of `pending_outbound` is
moved to the back of `requested_outbound` and an outbound substream request
is issued for it. -/
def Handler.poll {Msg : Type} (h : Handler Msg) (taskPoll : TaskPoll Msg) :
    HandlerPoll Msg × Handler Msg :=
  match taskPoll with
  | .readyOk event => (.NotifyBehaviour event, h)
  | .readyErr => (.NotifyBehaviour (Event.Err Error.Timeout), h)
  | .pending =>
    match h.pending_events with
    | event :: rest => (.NotifyBehaviour event, { h with pending_events := rest })
    | [] =>
      match h.pending_outbound with
      | message :: rest =>
        (.OutboundSubstreamRequest,
          { h with
            pending_outbound := rest
            requested_outbound := h.requested_outbound ++ [message] })
      | [] => (.Pending, h)

/-- The router state (`Behaviour` in `behaviour.rs`). -/
structure Behaviour (Msg : Type) where
  protocol : Nat
  config : Config
  pending_events : List (ToSwarm Msg)
  pending_outbound_messages : List (PeerId × List (OutboundMessage Msg))
  connected : List (PeerId × List Connection)
  next_outbound_message_id : MessageId
deriving DecidableEq, Repr

/-- `Behaviour::new`. -/
def Behaviour.new {Msg : Type} (protocol : Nat) (config : Config) :
    Behaviour Msg :=
  { protocol := protocol
    config := config
    pending_events := []
    pending_outbound_messages := []
    connected := []
    next_outbound_message_id := 0 }

/-- `Behaviour::next_outbound_message_id`: returns the current counter and
advances it with `wrapping_add(1)`. -/
def Behaviour.next_message_id {Msg : Type} (s : Behaviour Msg) :
    MessageId × Behaviour Msg :=
  (s.next_outbound_message_id,
    { s with next_outbound_message_id := (s.next_outbound_message_id + 1) % U64_MOD })

/-- `Behaviour::try_send_request`: if the peer has a non-empty connection
list, route by `message_id mod connection_count`, record the id in the
pending set of the chosen connection and queue a `NotifyHandler` action,
returning `none`; otherwise give the message back (`some`). The `getD`
default is never reached: the index is `message_id % length` with a
non-empty list. -/
def Behaviour.try_send_request {Msg : Type} (s : Behaviour Msg)
    (message : OutboundMessage Msg) :
    Option (OutboundMessage Msg) × Behaviour Msg :=
  match alGet s.connected message.peer_id with
  | some connections =>
    if connections.isEmpty then (some message, s)
    else
      let ix := message.message_id % connections.length
      let conn := connections.getD ix (Connection.new 0 none)
      let conn' := { conn with
        pending_messages := hsInsert message.message_id conn.pending_messages }
      (none,
        { s with
          connected := alSet s.connected message.peer_id (connections.set ix conn')
          pending_events := s.pending_events ++
            [ToSwarm.NotifyHandler message.peer_id conn.id message] })
  | none => (some message, s)

/-- `Behaviour::send_message`: allocate the next message id, attempt
immediate dispatch; if the peer has no connection, queue a dial request and
enqueue the message under the pending queue of the peer. The Rust function
returns `()`: the allocated id is not returned to the caller. -/
def Behaviour.send_message {Msg : Type} (s : Behaviour Msg) (peer_id : PeerId)
    (message : Msg) : Behaviour Msg :=
  let p := s.next_message_id
  let message_id := p.1
  let s := p.2
  let msg : OutboundMessage Msg :=
    { peer_id := peer_id, message_id := message_id, message := message }
  match s.try_send_request msg with
  | (some msg, s) =>
    { s with
      pending_events := s.pending_events ++ [ToSwarm.Dial peer_id]
      pending_outbound_messages :=
        alUpdate s.pending_outbound_messages peer_id (· ++ [msg]) [] }
  | (none, s) => s

/-- Remove the first connection with the given id from the list
(`iter().position(..)` followed by `remove(p)` in
`Behaviour::on_connection_closed`); `none` when no connection matches. -/
def removeConnById : List Connection → ConnectionId →
    Option (Connection × List Connection)
  | [], _ => none
  | c :: rest, cid =>
    if c.id = cid then some (c, rest)
    else
      match removeConnById rest cid with
      | none => none
      | some (x, rest') => some (x, c :: rest')

/-- `Behaviour::on_connection_closed`: the peer and the connection id must
already be tracked (`.expect` panics otherwise, hence `Option`); the
connection is removed, the peer entry is dropped when its list becomes
empty, and one `InboundFailure`/`ConnectionClosed` event is queued per
message id still pending on the closed connection. The
`remaining_established` argument only feeds a `debug_assert`. -/
def Behaviour.on_connection_closed {Msg : Type} (s : Behaviour Msg)
    (peer_id : PeerId) (connection_id : ConnectionId)
    ( _remaining_established : Nat) : Option (Behaviour Msg) :=
  match alGet s.connected peer_id with
  | none => none
  | some connections =>
    match removeConnById connections connection_id with
    | none => none
    | some (connection, connections') =>
      let connected' :=
        if connections'.isEmpty then (alRemove s.connected peer_id).2
        else alSet s.connected peer_id connections'
      some { s with
        connected := connected'
        pending_events := s.pending_events ++
          connection.pending_messages.map (fun message_id =>
            ToSwarm.GenerateEvent
              (Event.InboundFailure peer_id message_id Error.ConnectionClosed)) }

/-- Update the stored remote address of the matching connection inside one
connection list (the inner loop of `Behaviour::on_address_change`). -/
def setAddr : List Connection → ConnectionId → Multiaddr → List Connection
  | [], _, _ => []
  | c :: rest, cid, a =>
    if c.id = cid then { c with remote_address := some a } :: rest
    else c :: setAddr rest cid a

/-- `Behaviour::on_address_change`: best-effort update; an untracked peer or
connection id is silently ignored. -/
def Behaviour.on_address_change {Msg : Type} (s : Behaviour Msg)
    (peer_id : PeerId) (connection_id : ConnectionId) (new : Multiaddr) :
    Behaviour Msg :=
  match alGet s.connected peer_id with
  | none => s
  | some connections =>
    { s with connected := alSet s.connected peer_id (setAddr connections connection_id new) }

/-- `Behaviour::on_dial_failure`: with a named peer, drop the pending queue
of that peer and queue one `OutboundFailure`/`DialFailure` event per queued
message; without a peer id, do nothing. -/
def Behaviour.on_dial_failure {Msg : Type} (s : Behaviour Msg)
    (peer_id : Option PeerId) : Behaviour Msg :=
  match peer_id with
  | none => s
  | some peer =>
    match alRemove s.pending_outbound_messages peer with
    | (none, _) => s
    | (some pending, pom') =>
      { s with
        pending_outbound_messages := pom'
        pending_events := s.pending_events ++
          pending.map (fun request =>
            ToSwarm.GenerateEvent
              (Event.OutboundFailure peer request.message_id Error.DialFailure)) }

/-- Flush the pending queue of a peer into a fresh connection record and its
handler (the loop of `Behaviour::on_connection_established`): each message
id is inserted into the pending set of the connection and the message is
handed to the handler, in queue order. -/
def flushPending {Msg : Type} :
    List (OutboundMessage Msg) → Connection → Handler Msg →
    Connection × Handler Msg
  | [], conn, handler => (conn, handler)
  | message :: rest, conn, handler =>
    flushPending rest
      { conn with pending_messages := hsInsert message.message_id conn.pending_messages }
      (handler.on_behaviour_event message)

/-- `Behaviour::on_connection_established`: build the connection record,
move every queued message of the peer into the handler (recording each id
as pending on the record) and only then push the record onto the connection
list of the peer. -/
def Behaviour.on_connection_established {Msg : Type} (s : Behaviour Msg)
    (handler : Handler Msg) (peer_id : PeerId) (connection_id : ConnectionId)
    (remote_address : Option Multiaddr) : Behaviour Msg × Handler Msg :=
  let conn := Connection.new connection_id remote_address
  let pn := alRemove s.pending_outbound_messages peer_id
  let ch :=
    match pn.1 with
    | none => (conn, handler)
    | some pending_messages => flushPending pending_messages conn handler
  ({ s with
      pending_outbound_messages := pn.2
      connected := alUpdate s.connected peer_id (· ++ [ch.1]) [] },
    ch.2)

/-! Operations driving the router, for reachability statements. Connection
establishment goes through `handle_established_inbound_connection` /
`handle_established_outbound_connection`, both of which create a fresh
`Handler` and call `on_connection_established`; an operation that panics
yields `none`. -/

/-- One router-driving operation. -/
inductive Op (Msg : Type) where
  | send (peer_id : PeerId) (message : Msg)
  | connectionEstablished (peer_id : PeerId) (connection_id : ConnectionId)
      (remote_address : Option Multiaddr)
  | connectionClosed (peer_id : PeerId) (connection_id : ConnectionId)
      (remaining_established : Nat)
  | addressChanged (peer_id : PeerId) (connection_id : ConnectionId)
      (new : Multiaddr)
  | dialFailure (peer_id : Option PeerId)
deriving DecidableEq, Repr

/-- Apply one operation to the router state. -/
def Behaviour.step {Msg : Type} (s : Behaviour Msg) : Op Msg → Option (Behaviour Msg)
  | .send p m => some (s.send_message p m)
  | .connectionEstablished p c a =>
    some (s.on_connection_established (Handler.new p s.protocol s.config) p c a).1
  | .connectionClosed p c r => s.on_connection_closed p c r
  | .addressChanged p c a => some (s.on_address_change p c a)
  | .dialFailure p => some (s.on_dial_failure p)

/-- Apply a sequence of operations, stopping at a panic. -/
def Behaviour.run {Msg : Type} (s : Behaviour Msg) : List (Op Msg) → Option (Behaviour Msg)
  | [] => some s
  | op :: ops =>
    match s.step op with
    | none => none
    | some s' => s'.run ops

/-! The wire codecs (`codecs/bincode.rs` and `codecs/prost.rs`). Both read a
4-byte big-endian length, reject declared lengths above `MAX_MESSAGE_SIZE`
before touching the payload, read exactly that many payload bytes and hand
them to the pluggable deserializer. The deserializer
(`bincode::decode_from_slice` resp. prost `Message::decode`) is a function
parameter returning the decoded message together with the number of payload
bytes it consumed. -/

/-- Errors of the codec paths (`std::io::Error` values constructed in
`decode_from`/`encode_to`, plus short reads). -/
inductive IoError where
  | eof
  | messageTooLarge
  | deserFailed
  | bytesRemaining
deriving DecidableEq, Repr

/-- A decoded message together with the negotiated protocol
(`Message` in `message.rs`). -/
structure CMessage (Msg : Type) where
  message : Msg
  protocol : Nat
deriving DecidableEq, Repr

/-- `u32::from_be_bytes` on a 4-byte buffer. -/
def u32beToNat : List Nat → Nat
  | [b0, b1, b2, b3] => ((b0 * 256 + b1) * 256 + b2) * 256 + b3
  | _ => 0

/-- `u32::to_be_bytes`. -/
def u32beOfNat (n : Nat) : List Nat :=
  [n / 2 ^ 24 % 256, n / 2 ^ 16 % 256, n / 2 ^ 8 % 256, n % 256]

/-- `BincodeCodec::decode_from`: length header, size check, exact payload
read, deserialize, then fail with the bytes-remaining error unless the
deserializer consumed exactly the declared length (`bytes_read != len`). -/
def bincodeDecodeFrom {Msg : Type}
    (deser : List Nat → Except Unit (Msg × Nat)) (protocol : Nat)
    (input : List Nat) : Except IoError (CMessage Msg) :=
  if input.length < 4 then .error .eof
  else
    let len := u32beToNat (input.take 4)
    if len > MAX_MESSAGE_SIZE then .error .messageTooLarge
    else
      let rest := input.drop 4
      if rest.length < len then .error .eof
      else
        match deser (rest.take len) with
        | .error _ => .error .deserFailed
        | .ok (message, bytes_read) =>
          if bytes_read ≠ len then .error .bytesRemaining
          else .ok { message := message, protocol := protocol }

/-- `ProstCodec::decode_from`: identical framing, but after deserializing it
checks `slice.is_empty()` — the slice the deserializer advanced past the
consumed bytes — and returns the bytes-remaining error when the slice IS
empty, i.e. exactly when the whole declared payload was consumed. -/
def prostDecodeFrom {Msg : Type}
    (deser : List Nat → Except Unit (Msg × Nat)) (protocol : Nat)
    (input : List Nat) : Except IoError (CMessage Msg) :=
  if input.length < 4 then .error .eof
  else
    let len := u32beToNat (input.take 4)
    if len > MAX_MESSAGE_SIZE then .error .messageTooLarge
    else
      let rest := input.drop 4
      if rest.length < len then .error .eof
      else
        match deser (rest.take len) with
        | .error _ => .error .deserFailed
        | .ok (message, bytes_read) =>
          if (rest.take len).drop bytes_read = [] then .error .bytesRemaining
          else .ok { message := message, protocol := protocol }

/-- Modelled from the spec: `encode_to` of both codecs is left `todo!()`
in the source, so the encoder is taken from the specification of
`encode(writer, message)`: serialize the message, verify the serialized
length does not exceed the maximum, write the 4-byte big-endian length
header, then write the payload. The serializer is a function parameter,
mirroring the deserializer parameter of the decoders. -/
def encodeTo {Msg : Type} (ser : Msg → List Nat) (message : Msg) :
    Except IoError (List Nat) :=
  let payload := ser message
  if payload.length > MAX_MESSAGE_SIZE then .error .messageTooLarge
  else .ok (u32beOfNat payload.length ++ payload)

/-- Invariant of the peer/connection map: keys are unique (it is a
`HashMap` in the source) and no tracked peer has an empty connection
list. -/
def ConnectedInv {Msg : Type} (s : Behaviour Msg) : Prop :=
  (s.connected.map Prod.fst).Nodup ∧ ∀ e ∈ s.connected, e.2 ≠ []

/-! Lemmas about the association-list embedding of `HashMap`. -/

theorem alGet_mem {V : Type} {l : List (Nat × V)} {k : Nat} {v : V}
    (h : alGet l k = some v) : (k, v) ∈ l := by
  induction l with
  | nil => simp [alGet] at h
  | cons e rest ih =>
    obtain ⟨k', w⟩ := e
    by_cases hk : k' = k
    · subst hk
      simp [alGet] at h
      simp [h]
    · simp [alGet, hk] at h
      exact List.mem_cons_of_mem _ (ih h)

theorem alGet_alSet_self {V : Type} {l : List (Nat × V)} {k : Nat} {w : V}
    (h : alGet l k = some w) (v : V) : alGet (alSet l k v) k = some v := by
  induction l with
  | nil => simp [alGet] at h
  | cons e rest ih =>
    obtain ⟨k', u⟩ := e
    by_cases hk : k' = k
    · subst hk
      simp [alGet, alSet]
    · simp [alGet, alSet, hk] at h ⊢
      exact ih h

theorem alGet_alSet_ne {V : Type} (l : List (Nat × V)) (k q : Nat) (v : V)
    (h : q ≠ k) : alGet (alSet l k v) q = alGet l q := by
  induction l with
  | nil => simp [alSet]
  | cons e rest ih =>
    obtain ⟨k', u⟩ := e
    by_cases hk : k' = k
    · subst hk
      simp [alSet, alGet, Ne.symm h]
    · simp [alSet, alGet, hk]
      by_cases hq : k' = q <;> simp [hq, ih]

theorem alGet_alUpdate_self {V : Type} (l : List (Nat × V)) (k : Nat)
    (f : V → V) (d : V) :
    alGet (alUpdate l k f d) k = some (f ((alGet l k).getD d)) := by
  induction l with
  | nil => simp [alUpdate, alGet]
  | cons e rest ih =>
    obtain ⟨k', u⟩ := e
    by_cases hk : k' = k
    · subst hk
      simp [alUpdate, alGet]
    · simp [alUpdate, alGet, hk, ih]

theorem alRemove_fst {V : Type} (l : List (Nat × V)) (k : Nat) :
    (alRemove l k).1 = alGet l k := by
  induction l with
  | nil => simp [alRemove, alGet]
  | cons e rest ih =>
    obtain ⟨k', u⟩ := e
    by_cases hk : k' = k <;> simp [alRemove, alGet, hk, ih]

theorem alGet_alRemove_ne {V : Type} (l : List (Nat × V)) (k q : Nat)
    (h : q ≠ k) : alGet (alRemove l k).2 q = alGet l q := by
  induction l with
  | nil => simp [alRemove]
  | cons e rest ih =>
    obtain ⟨k', u⟩ := e
    by_cases hk : k' = k
    · subst hk
      simp [alRemove, alGet, Ne.symm h]
    · simp [alRemove, alGet, hk]
      by_cases hq : k' = q <;> simp [hq, ih]

theorem mem_alRemove {V : Type} {l : List (Nat × V)} {k : Nat} {e : Nat × V}
    (h : e ∈ (alRemove l k).2) : e ∈ l := by
  induction l with
  | nil => simp [alRemove] at h
  | cons e' rest ih =>
    obtain ⟨k', u⟩ := e'
    by_cases hk : k' = k
    · subst hk
      simp [alRemove] at h
      simp [h]
    · simp [alRemove, hk] at h
      rcases h with h | h
      · simp [h]
      · exact List.mem_cons_of_mem _ (ih h)

theorem keys_alRemove_sublist {V : Type} (l : List (Nat × V)) (k : Nat) :
    ((alRemove l k).2.map Prod.fst).Sublist (l.map Prod.fst) := by
  induction l with
  | nil => simp [alRemove]
  | cons e rest ih =>
    obtain ⟨k', u⟩ := e
    by_cases hk : k' = k
    · subst hk
      simp [alRemove]
    · simp [alRemove, hk]
      exact ih

theorem alGet_alRemove_self {V : Type} (l : List (Nat × V)) (k : Nat)
    (hk : (l.map Prod.fst).Nodup) : alGet (alRemove l k).2 k = none := by
  induction l with
  | nil => simp [alRemove, alGet]
  | cons e rest ih =>
    obtain ⟨k', u⟩ := e
    simp at hk
    by_cases h : k' = k
    · subst h
      simp [alRemove]
      cases hrest : alGet rest k' with
      | none => rfl
      | some v => exact absurd (alGet_mem hrest) (hk.1 v)
    · simp [alRemove, alGet, h]
      exact ih hk.2

theorem keys_alSet {V : Type} (l : List (Nat × V)) (k : Nat) (v : V) :
    (alSet l k v).map Prod.fst = l.map Prod.fst := by
  induction l with
  | nil => simp [alSet]
  | cons e rest ih =>
    obtain ⟨k', u⟩ := e
    by_cases hk : k' = k
    · subst hk
      simp [alSet]
    · simp [alSet, hk, ih]

theorem mem_alSet {V : Type} {l : List (Nat × V)} {k : Nat} {v : V}
    {e : Nat × V} (h : e ∈ alSet l k v) : e = (k, v) ∨ e ∈ l := by
  induction l with
  | nil => simp [alSet] at h
  | cons e' rest ih =>
    obtain ⟨k', u⟩ := e'
    by_cases hk : k' = k
    · subst hk
      simp [alSet] at h
      rcases h with h | h
      · exact Or.inl h
      · exact Or.inr (List.mem_cons_of_mem _ h)
    · simp [alSet, hk] at h
      rcases h with h | h
      · simp [h]
      · rcases ih h with h' | h'
        · exact Or.inl h'
        · exact Or.inr (List.mem_cons_of_mem _ h')

theorem mem_alUpdate {V : Type} {l : List (Nat × V)} {k : Nat} {f : V → V}
    {d : V} {e : Nat × V} (h : e ∈ alUpdate l k f d) :
    (∃ w, e = (k, f w)) ∨ e ∈ l := by
  induction l with
  | nil =>
    simp [alUpdate] at h
    exact Or.inl ⟨d, h⟩
  | cons e' rest ih =>
    obtain ⟨k', u⟩ := e'
    by_cases hk : k' = k
    · subst hk
      simp [alUpdate] at h
      rcases h with h | h
      · exact Or.inl ⟨u, h⟩
      · exact Or.inr (List.mem_cons_of_mem _ h)
    · simp [alUpdate, hk] at h
      rcases h with h | h
      · simp [h]
      · rcases ih h with h' | h'
        · exact Or.inl h'
        · exact Or.inr (List.mem_cons_of_mem _ h')

theorem keys_alUpdate_mem {V : Type} {l : List (Nat × V)} {k : Nat}
    {f : V → V} {d : V} {x : Nat} (h : x ∈ (alUpdate l k f d).map Prod.fst) :
    x ∈ l.map Prod.fst ∨ x = k := by
  obtain ⟨e, he, hex⟩ := List.mem_map.mp h
  rcases mem_alUpdate he with ⟨w, hw⟩ | hm
  · right
    rw [← hex, hw]
  · left
    rw [← hex]
    exact List.mem_map_of_mem Prod.fst hm

theorem keys_alUpdate_nodup {V : Type} (l : List (Nat × V)) (k : Nat)
    (f : V → V) (d : V) (h : (l.map Prod.fst).Nodup) :
    ((alUpdate l k f d).map Prod.fst).Nodup := by
  induction l with
  | nil => simp [alUpdate]
  | cons e rest ih =>
    obtain ⟨k', u⟩ := e
    rw [List.map_cons, List.nodup_cons] at h
    by_cases hk : k' = k
    · subst hk
      have heq : alUpdate ((k', u) :: rest) k' f d = (k', f u) :: rest := by
        simp [alUpdate]
      rw [heq, List.map_cons, List.nodup_cons]
      exact h
    · have heq : alUpdate ((k', u) :: rest) k f d = (k', u) :: alUpdate rest k f d := by
        simp [alUpdate, hk]
      rw [heq, List.map_cons, List.nodup_cons]
      refine ⟨fun hx => ?_, ih h.2⟩
      rcases keys_alUpdate_mem hx with hm | hm
      · exact h.1 hm
      · exact hk hm

theorem alGet_alUpdate_ne {V : Type} (l : List (Nat × V)) (k q : Nat)
    (f : V → V) (d : V) (h : q ≠ k) :
    alGet (alUpdate l k f d) q = alGet l q := by
  induction l with
  | nil => simp [alUpdate, alGet, Ne.symm h]
  | cons e rest ih =>
    obtain ⟨k', u⟩ := e
    by_cases hk : k' = k
    · subst hk
      simp [alUpdate, alGet, Ne.symm h]
    · simp [alUpdate, alGet, hk]
      by_cases hq : k' = q <;> simp [hq, ih]

theorem mem_hsInsert (x y : Nat) (s : List Nat) :
    x ∈ hsInsert y s ↔ x = y ∨ x ∈ s := by
  by_cases h : y ∈ s
  · simp [hsInsert, h]
    intro hx
    subst hx
    exact h
  · simp [hsInsert, h, or_comm]

/-! Lemmas about flushing the pending queue into a new connection. -/

theorem flushPending_handler {Msg : Type} (msgs : List (OutboundMessage Msg))
    (conn : Connection) (handler : Handler Msg) :
    (flushPending msgs conn handler).2.pending_outbound
      = handler.pending_outbound ++ msgs := by
  induction msgs generalizing conn handler with
  | nil => simp [flushPending]
  | cons m rest ih =>
    simp [flushPending, ih, Handler.on_behaviour_event]

theorem flushPending_conn_id {Msg : Type} (msgs : List (OutboundMessage Msg))
    (conn : Connection) (handler : Handler Msg) :
    (flushPending msgs conn handler).1.id = conn.id := by
  induction msgs generalizing conn handler with
  | nil => simp [flushPending]
  | cons m rest ih =>
    simp [flushPending, ih]

theorem mem_flushPending_conn {Msg : Type} (msgs : List (OutboundMessage Msg))
    (conn : Connection) (handler : Handler Msg) (mid : MessageId) :
    mid ∈ (flushPending msgs conn handler).1.pending_messages
      ↔ mid ∈ conn.pending_messages ∨ mid ∈ msgs.map (fun m => m.message_id) := by
  induction msgs generalizing conn handler with
  | nil => simp [flushPending]
  | cons m rest ih =>
    simp [flushPending, ih, mem_hsInsert]
    tauto

theorem try_send_request_preserves {Msg : Type} (s : Behaviour Msg)
    (msg : OutboundMessage Msg) :
    ((s.try_send_request msg).2).next_outbound_message_id = s.next_outbound_message_id ∧
    ((s.try_send_request msg).2).pending_outbound_messages = s.pending_outbound_messages := by
  unfold Behaviour.try_send_request
  cases h : alGet s.connected msg.peer_id with
  | none => simp
  | some connections =>
    by_cases he : connections.isEmpty <;> simp [he]

/-- C10: a dial-failure notification that carries no peer identifier leaves
the router state — peer/connection map, per-peer pending queues, queued
events and the message-id counter — entirely unchanged, and no events are
emitted. -/
theorem on_dial_failure_none_unchanged (Msg : Type) (s : Behaviour Msg) :
    s.on_dial_failure none = s := rfl

/-- C6 (code bug): the allocation side of the claim holds — a fresh router
starts its counter at 0 and every `send_message` stamps the outbound
message with the current counter and advances the counter by one modulo
`2 ^ 64` — but the Rust `send_message` returns `()`, so the allocated
identifier is never returned to the caller. This theorem proves the
allocation behaviour; the missing return value has no counterpart to prove
against. -/
theorem send_message_allocates (Msg : Type) (s : Behaviour Msg) (p : PeerId) (m : Msg) :
    (s.send_message p m).next_outbound_message_id
        = (s.next_outbound_message_id + 1) % U64_MOD ∧
    (Behaviour.new 0 Config.default : Behaviour Nat).next_outbound_message_id = 0 ∧
    ((2 ^ 64 - 1 : Nat) + 1) % U64_MOD = 0 := by
  refine ⟨?_, rfl, by decide⟩
  have h := try_send_request_preserves
    { s with next_outbound_message_id := (s.next_outbound_message_id + 1) % U64_MOD }
    { peer_id := p, message_id := s.next_outbound_message_id, message := m }
  revert h
  simp only [Behaviour.send_message, Behaviour.next_message_id]
  cases Behaviour.try_send_request
      { s with next_outbound_message_id := (s.next_outbound_message_id + 1) % U64_MOD }
      { peer_id := p, message_id := s.next_outbound_message_id, message := m } with
  | mk o st =>
    cases o <;> intro h <;> simpa using h.1

/-- C8 (code bug): `ProstCodec::decode_from` inverts the leftover-bytes
check. With a declared length of 2 and payload bytes `[5, 6]`: a
deserializer that consumes 0 of the 2 bytes (leaving 2 bytes unconsumed)
makes prost decode SUCCEED, while a deserializer that consumes exactly the
declared 2 bytes makes it fail with the bytes-remaining error; the bincode
codec implements the check the claim states. -/
theorem prost_leftover_check_inverted :
    prostDecodeFrom (fun _ => Except.ok ((99 : Nat), (0 : Nat))) 0 [0, 0, 0, 2, 5, 6]
      = Except.ok { message := 99, protocol := 0 } ∧
    prostDecodeFrom (fun buf => Except.ok ((99 : Nat), buf.length)) 0 [0, 0, 0, 2, 5, 6]
      = Except.error IoError.bytesRemaining ∧
    bincodeDecodeFrom (fun _ => Except.ok ((99 : Nat), (0 : Nat))) 0 [0, 0, 0, 2, 5, 6]
      = Except.error IoError.bytesRemaining := by
  exact ⟨rfl, rfl, rfl⟩

/-- C9 (code bug): with the spec-modelled encoder (the source leaves
`encode_to` as `todo!()`) and the identity serializer pair — the
deserializer consumes the whole payload, as prost does — the encoded form
of the one-byte message `[7]` decodes back under the bincode framing but
FAILS under the prost framing with the bytes-remaining error, because the
prost leftover check is inverted; a declared length of `MAX_MESSAGE_SIZE + 1`
(bytes `[0, 64, 0, 1]`) is rejected with the too-large error even though
the stream contains no payload bytes at all, i.e. without attempting to
read the declared payload. -/
theorem prost_roundtrip_fails :
    encodeTo (fun m => m) [7] = Except.ok [0, 0, 0, 1, 7] ∧
    prostDecodeFrom (fun buf => Except.ok (buf, buf.length)) 0 [0, 0, 0, 1, 7]
      = Except.error IoError.bytesRemaining ∧
    bincodeDecodeFrom (fun buf => Except.ok (buf, buf.length)) 0 [0, 0, 0, 1, 7]
      = Except.ok { message := [7], protocol := 0 } ∧
    prostDecodeFrom (fun buf => Except.ok (buf, buf.length)) 0 [0, 64, 0, 1]
      = Except.error IoError.messageTooLarge := by
  exact ⟨rfl, rfl, rfl, rfl⟩

/-- C5: a dial failure naming a peer whose pending queue holds M messages
queues exactly M `OutboundFailure` events with the dial-failure error — one
per queued message — and removes the pending queue of that peer entirely,
leaving other queues, the peer/connection map (and with it every message
already dispatched to a connection) and the id counter untouched. -/
theorem on_dial_failure_some_clears (Msg : Type) (s : Behaviour Msg) (p : PeerId)
    (msgs : List (OutboundMessage Msg))
    (hk : (s.pending_outbound_messages.map Prod.fst).Nodup)
    (hq : alGet s.pending_outbound_messages p = some msgs) :
    (s.on_dial_failure (some p)).pending_events = s.pending_events ++
      msgs.map (fun r => ToSwarm.GenerateEvent
        (Event.OutboundFailure p r.message_id Error.DialFailure)) ∧
    (s.on_dial_failure (some p)).pending_events.length
      = s.pending_events.length + msgs.length ∧
    alGet (s.on_dial_failure (some p)).pending_outbound_messages p = none ∧
    (∀ q, q ≠ p → alGet (s.on_dial_failure (some p)).pending_outbound_messages q
      = alGet s.pending_outbound_messages q) ∧
    (s.on_dial_failure (some p)).connected = s.connected ∧
    (s.on_dial_failure (some p)).next_outbound_message_id
      = s.next_outbound_message_id := by
  have hfst : (alRemove s.pending_outbound_messages p).1 = some msgs := by
    rw [alRemove_fst]
    exact hq
  have hnone := alGet_alRemove_self s.pending_outbound_messages p hk
  have hother := fun q (hqp : q ≠ p) => alGet_alRemove_ne s.pending_outbound_messages p q hqp
  simp only [Behaviour.on_dial_failure]
  cases hr : alRemove s.pending_outbound_messages p with
  | mk o pom =>
    rw [hr] at hfst hnone
    simp only at hfst
    subst hfst
    refine ⟨rfl, by simp, by simpa using hnone, ?_, rfl, rfl⟩
    intro q hqp
    have := hother q hqp
    rw [hr] at this
    simpa using this

/-- Closed witness for `on_dial_failure_some_clears`. -/
theorem on_dial_failure_some_clears_witness :
    ((⟨0, Config.default, [], [(4, [⟨4, 0, 11⟩, ⟨4, 1, 12⟩])], [], 2⟩ :
        Behaviour Nat).on_dial_failure (some 4)).pending_events
      = [ToSwarm.GenerateEvent (Event.OutboundFailure 4 0 Error.DialFailure),
         ToSwarm.GenerateEvent (Event.OutboundFailure 4 1 Error.DialFailure)] :=
  (on_dial_failure_some_clears Nat
    ⟨0, Config.default, [], [(4, [⟨4, 0, 11⟩, ⟨4, 1, 12⟩])], [], 2⟩ 4
    [⟨4, 0, 11⟩, ⟨4, 1, 12⟩] (by decide) (by decide)).1

/-- C1: establishing a connection to a peer with a non-empty pending queue
hands every queued message to the handler of the new connection in original
send order, records every queued identifier as pending on the connection
record that is inserted into the peer/connection map, and removes the
pending queue of that peer. -/
theorem on_connection_established_flushes (Msg : Type) (s : Behaviour Msg)
    (handler : Handler Msg) (peer : PeerId) (cid : ConnectionId)
    (addr : Option Multiaddr) (msgs : List (OutboundMessage Msg))
    (hk : (s.pending_outbound_messages.map Prod.fst).Nodup)
    (hq : alGet s.pending_outbound_messages peer = some msgs)
    (hne : msgs ≠ []) :
    ((s.on_connection_established handler peer cid addr).2).pending_outbound
      = handler.pending_outbound ++ msgs ∧
    alGet ((s.on_connection_established handler peer cid addr).1).pending_outbound_messages
      peer = none ∧
    ∃ conn,
      alGet ((s.on_connection_established handler peer cid addr).1).connected peer
        = some ((alGet s.connected peer).getD [] ++ [conn]) ∧
      conn.id = cid ∧
      ∀ mid, mid ∈ conn.pending_messages ↔ mid ∈ msgs.map (fun m => m.message_id) := by
  have hfst : (alRemove s.pending_outbound_messages peer).1 = some msgs := by
    rw [alRemove_fst]
    exact hq
  have hnone := alGet_alRemove_self s.pending_outbound_messages peer hk
  simp only [Behaviour.on_connection_established]
  cases hr : alRemove s.pending_outbound_messages peer with
  | mk o pom =>
    rw [hr] at hfst hnone
    simp only at hfst
    subst hfst
    refine ⟨by simp [flushPending_handler], by simpa using hnone, ?_⟩
    refine ⟨(flushPending msgs (Connection.new cid addr) handler).1, ?_, ?_, ?_⟩
    · simpa using alGet_alUpdate_self s.connected peer
        (· ++ [(flushPending msgs (Connection.new cid addr) handler).1]) []
    · simpa [Connection.new] using
        flushPending_conn_id msgs (Connection.new cid addr) handler
    · intro mid
      simpa [Connection.new] using
        mem_flushPending_conn msgs (Connection.new cid addr) handler mid

/-- Closed witness for `on_connection_established_flushes`. -/
theorem on_connection_established_flushes_witness :
    ((Behaviour.on_connection_established
        (⟨0, Config.default, [], [(5, [⟨5, 0, 77⟩])], [], 1⟩ : Behaviour Nat)
        (Handler.new 5 0 Config.default) 5 9 none).2).pending_outbound
      = [⟨5, 0, 77⟩] :=
  (on_connection_established_flushes Nat
    ⟨0, Config.default, [], [(5, [⟨5, 0, 77⟩])], [], 1⟩
    (Handler.new 5 0 Config.default) 5 9 none [⟨5, 0, 77⟩]
    (by decide) (by decide) (by decide)).1

/-- C2: a send to a peer with a non-empty connection list allocates the id,
queues a `NotifyHandler` action for the connection at index
`message_id % connection_count` of the insertion-ordered list, records the
id in the pending set of that connection, and neither touches the pending
queues nor queues a dial. -/
theorem send_message_routes (Msg : Type) (s : Behaviour Msg) (p : PeerId) (m : Msg)
    (conns : List Connection) (ix : Nat) (conn : Connection)
    (hc : alGet s.connected p = some conns) (hne : conns ≠ [])
    (hix : ix = s.next_outbound_message_id % conns.length)
    (hconn : conn = conns.getD ix (Connection.new 0 none)) :
    (s.send_message p m).pending_events = s.pending_events ++
      [ToSwarm.NotifyHandler p conn.id
        { peer_id := p, message_id := s.next_outbound_message_id, message := m }] ∧
    alGet (s.send_message p m).connected p = some (conns.set ix
      { conn with
        pending_messages := hsInsert s.next_outbound_message_id conn.pending_messages }) ∧
    s.next_outbound_message_id ∈ hsInsert s.next_outbound_message_id conn.pending_messages ∧
    (s.send_message p m).pending_outbound_messages = s.pending_outbound_messages := by
  subst hix
  subst hconn
  have hie : conns.isEmpty = false := by
    cases conns with
    | nil => exact absurd rfl hne
    | cons a l => rfl
  simp only [Behaviour.send_message, Behaviour.next_message_id,
    Behaviour.try_send_request, hc, hie]
  refine ⟨rfl, ?_, ?_, rfl⟩
  · exact alGet_alSet_self hc _
  · simp [mem_hsInsert]

/-- Closed witness for `send_message_routes`. -/
theorem send_message_routes_witness :
    ((⟨0, Config.default, [], [], [(5, [⟨9, none, []⟩])], 0⟩ :
        Behaviour Nat).send_message 5 77).pending_events
      = [ToSwarm.NotifyHandler 5 9 ⟨5, 0, 77⟩] :=
  (send_message_routes Nat ⟨0, Config.default, [], [], [(5, [⟨9, none, []⟩])], 0⟩
    5 77 [⟨9, none, []⟩] 0 ⟨9, none, []⟩
    (by decide) (by decide) (by decide) (by decide)).1

/-- C4: closing a tracked connection with K pending message identifiers
queues exactly K failure events carrying the connection-closed error — one
per pending identifier, with no duplicates, membership matching the pending
set exactly — and removes the connection from the list of the peer,
dropping the peer entry when the list becomes empty. -/
theorem on_connection_closed_fails_pending (Msg : Type) (s : Behaviour Msg)
    (p : PeerId) (cid : ConnectionId) (r : Nat) (conns : List Connection)
    (conn : Connection) (rest : List Connection) (s' : Behaviour Msg)
    (hck : (s.connected.map Prod.fst).Nodup)
    (hc : alGet s.connected p = some conns)
    (hr : removeConnById conns cid = some (conn, rest))
    (hnd : conn.pending_messages.Nodup)
    (hs : s.on_connection_closed p cid r = some s') :
    s'.pending_events = s.pending_events ++ conn.pending_messages.map
      (fun mid => ToSwarm.GenerateEvent
        (Event.InboundFailure p mid Error.ConnectionClosed)) ∧
    (s'.pending_events.drop s.pending_events.length).length
      = conn.pending_messages.length ∧
    (s'.pending_events.drop s.pending_events.length).Nodup ∧
    (∀ mid, ToSwarm.GenerateEvent (Event.InboundFailure p mid Error.ConnectionClosed)
        ∈ s'.pending_events.drop s.pending_events.length
      ↔ mid ∈ conn.pending_messages) ∧
    alGet s'.connected p = (if rest.isEmpty then none else some rest) := by
  have hinj : Function.Injective (fun mid => (ToSwarm.GenerateEvent
      (Event.InboundFailure p mid Error.ConnectionClosed) : ToSwarm Msg)) := by
    intro a b hab
    simpa using hab
  unfold Behaviour.on_connection_closed at hs
  simp only [hc, hr, Option.some.injEq] at hs
  subst hs
  refine ⟨rfl, ?_, ?_, ?_, ?_⟩
  · simp
  · rw [List.drop_left]
    exact hnd.map hinj
  · intro mid
    rw [List.drop_left]
    exact List.mem_map_of_injective hinj
  · by_cases he : rest.isEmpty = true
    · simp only [he, if_true]
      exact alGet_alRemove_self s.connected p hck
    · simp only [he, if_false]
      exact alGet_alSet_self hc rest

/-- Closed witness for `on_connection_closed_fails_pending`. -/
theorem on_connection_closed_fails_pending_witness :
    (⟨0, Config.default,
        [ToSwarm.GenerateEvent (Event.InboundFailure 5 0 Error.ConnectionClosed),
         ToSwarm.GenerateEvent (Event.InboundFailure 5 1 Error.ConnectionClosed)],
        [], [], 2⟩ : Behaviour Nat).pending_events
      = [ToSwarm.GenerateEvent (Event.InboundFailure 5 0 Error.ConnectionClosed),
         ToSwarm.GenerateEvent (Event.InboundFailure 5 1 Error.ConnectionClosed)] :=
  (on_connection_closed_fails_pending Nat
    ⟨0, Config.default, [], [], [(5, [⟨9, none, [0, 1]⟩])], 2⟩ 5 9 0
    [⟨9, none, [0, 1]⟩] ⟨9, none, [0, 1]⟩ [] _
    (by decide) (by decide) (by decide) (by decide) (by decide)).1

/-- C3: the FIFO correlation discipline of the handler. A message moves
from pending-outbound onto the back of the correlation queue
`requested_outbound` exactly when `poll` issues its outbound substream
request (both directions); a successful outbound negotiation pops the head
of the correlation queue and spawns the encode task for exactly that
message; a negotiation error pops the head and resolves exactly that
message according to the error kind; with an empty correlation queue either
resolution is a panic. -/
theorem handler_fifo_correlation (Msg : Type) (h : Handler Msg) :
    (∀ m rest, h.pending_events = [] → h.pending_outbound = m :: rest →
      h.poll TaskPoll.pending = (HandlerPoll.OutboundSubstreamRequest,
        { h with pending_outbound := rest,
                 requested_outbound := h.requested_outbound ++ [m] })) ∧
    (∀ tp res h', h.poll tp = (res, h') →
      res = HandlerPoll.OutboundSubstreamRequest →
      tp = TaskPoll.pending ∧ h.pending_events = [] ∧
      ∃ m rest, h.pending_outbound = m :: rest ∧ h'.pending_outbound = rest ∧
        h'.requested_outbound = h.requested_outbound ++ [m]) ∧
    (∀ m rest, h.requested_outbound = m :: rest →
      ∃ h', h.on_fully_negotiated_outbound = some h' ∧
        h'.requested_outbound = rest ∧
        (h.tasks.length < h.max_concurrent_streams →
          h'.tasks = h.tasks ++ [HandlerTask.encodeTask m.message_id m.message])) ∧
    (h.on_fully_negotiated_outbound = none ↔ h.requested_outbound = []) ∧
    (∀ err, h.on_dial_upgrade_error err = none ↔ h.requested_outbound = []) ∧
    (∀ m rest err, h.requested_outbound = m :: rest →
      ∃ h', h.on_dial_upgrade_error err = some h' ∧
        match err with
        | .Timeout => h'.requested_outbound = rest ∧ h'.pending_events =
            h.pending_events ++
              [Event.OutboundFailure h.peer_id m.message_id Error.DialUpgradeError]
        | .NegotiationFailed => h'.requested_outbound = rest ∧ h'.pending_events =
            h.pending_events ++
              [Event.OutboundFailure h.peer_id m.message_id Error.ProtocolNotSupported]
        | .Apply => h'.requested_outbound = rest ∧ h'.pending_events = h.pending_events
        | .Io => h'.requested_outbound = rest ++ [m] ∧
            h'.pending_events = h.pending_events) := by
  refine ⟨?_, ?_, ?_, ?_, ?_, ?_⟩
  · intro m rest hpe hpo
    simp [Handler.poll, hpe, hpo]
  · intro tp res h' hp hres
    subst hres
    cases tp with
    | readyOk e => simp [Handler.poll] at hp
    | readyErr => simp [Handler.poll] at hp
    | pending =>
      cases hpe : h.pending_events with
      | cons e es => simp [Handler.poll, hpe] at hp
      | nil =>
        cases hpo : h.pending_outbound with
        | nil => simp [Handler.poll, hpe, hpo] at hp
        | cons m rest =>
          simp only [Handler.poll, hpe, hpo, Prod.mk.injEq, true_and] at hp
          subst hp
          exact ⟨rfl, rfl, m, rest, rfl, rfl, rfl⟩
  · intro m rest hro
    simp only [Handler.on_fully_negotiated_outbound, hro]
    refine ⟨_, rfl, ?_, ?_⟩
    · by_cases ht : h.tasks.length < h.max_concurrent_streams <;> simp [ht]
    · intro ht
      simp [ht]
  · cases hro : h.requested_outbound <;>
      simp [Handler.on_fully_negotiated_outbound, hro]
  · intro err
    cases hro : h.requested_outbound <;>
      simp [Handler.on_dial_upgrade_error, hro]
  · intro m rest err hro
    cases err <;> simp only [Handler.on_dial_upgrade_error, hro] <;>
      exact ⟨_, rfl, rfl, rfl⟩

/-- Closed witness for `handler_fifo_correlation`. -/
theorem handler_fifo_correlation_witness :
    Handler.poll (⟨5, 0, [], [⟨5, 0, 77⟩], [], [], 3⟩ : Handler Nat) TaskPoll.pending
      = (HandlerPoll.OutboundSubstreamRequest,
         (⟨5, 0, [⟨5, 0, 77⟩], [], [], [], 3⟩ : Handler Nat)) :=
  (handler_fifo_correlation Nat ⟨5, 0, [], [⟨5, 0, 77⟩], [], [], 3⟩).1
    ⟨5, 0, 77⟩ [] rfl rfl

/-! Preservation of `ConnectedInv` by every router operation. -/

theorem setAddr_eq_nil_iff (l : List Connection) (cid : ConnectionId)
    (a : Multiaddr) : setAddr l cid a = [] ↔ l = [] := by
  cases l with
  | nil => simp [setAddr]
  | cons c rest => by_cases hid : c.id = cid <;> simp [setAddr, hid]

theorem list_set_ne_nil {l : List Connection} (h : l ≠ []) (ix : Nat)
    (c : Connection) : l.set ix c ≠ [] := by
  intro hnil
  apply h
  have := congrArg List.length hnil
  simp only [List.length_set, List.length_nil] at this
  exact List.length_eq_zero.mp this

theorem send_message_connected_cases (Msg : Type) (s : Behaviour Msg)
    (p : PeerId) (m : Msg) :
    (s.send_message p m).connected = s.connected ∨
    ∃ conns conns', alGet s.connected p = some conns ∧ conns ≠ [] ∧ conns' ≠ [] ∧
      (s.send_message p m).connected = alSet s.connected p conns' := by
  cases hc : alGet s.connected p with
  | none =>
    left
    simp [Behaviour.send_message, Behaviour.next_message_id,
      Behaviour.try_send_request, hc]
  | some conns =>
    by_cases hie : conns.isEmpty = true
    · left
      simp [Behaviour.send_message, Behaviour.next_message_id,
        Behaviour.try_send_request, hc, hie]
    · right
      have hne : conns ≠ [] := by
        cases conns with
        | nil => exact absurd rfl hie
        | cons a l => exact List.cons_ne_nil a l
      refine ⟨conns,
        conns.set (s.next_outbound_message_id % conns.length)
          { conns.getD (s.next_outbound_message_id % conns.length) (Connection.new 0 none) with
            pending_messages := hsInsert s.next_outbound_message_id
              (conns.getD (s.next_outbound_message_id % conns.length)
                (Connection.new 0 none)).pending_messages },
        rfl, hne, list_set_ne_nil hne _ _, ?_⟩
      simp [Behaviour.send_message, Behaviour.next_message_id,
        Behaviour.try_send_request, hc, hie]

theorem on_connection_established_connected (Msg : Type) (s : Behaviour Msg)
    (handler : Handler Msg) (p : PeerId) (cid : ConnectionId)
    (addr : Option Multiaddr) :
    ∃ c, ((s.on_connection_established handler p cid addr).1).connected
      = alUpdate s.connected p (· ++ [c]) [] :=
  ⟨_, rfl⟩

theorem on_connection_closed_connected (Msg : Type) (s : Behaviour Msg)
    (p : PeerId) (cid : ConnectionId) (r : Nat) (s' : Behaviour Msg)
    (hs : s.on_connection_closed p cid r = some s') :
    ∃ conns conn rest, alGet s.connected p = some conns ∧
      removeConnById conns cid = some (conn, rest) ∧
      s'.connected = (if rest.isEmpty then (alRemove s.connected p).2
        else alSet s.connected p rest) := by
  unfold Behaviour.on_connection_closed at hs
  cases hc : alGet s.connected p with
  | none => simp [hc] at hs
  | some conns =>
    cases hr : removeConnById conns cid with
    | none => simp [hc, hr] at hs
    | some pr =>
      obtain ⟨conn, rest⟩ := pr
      simp only [hc, hr, Option.some.injEq] at hs
      subst hs
      exact ⟨conns, conn, rest, rfl, hr, rfl⟩

theorem on_address_change_connected (Msg : Type) (s : Behaviour Msg)
    (p : PeerId) (cid : ConnectionId) (a : Multiaddr) :
    (s.on_address_change p cid a).connected = s.connected ∨
    ∃ conns, alGet s.connected p = some conns ∧
      (s.on_address_change p cid a).connected
        = alSet s.connected p (setAddr conns cid a) := by
  unfold Behaviour.on_address_change
  cases hc : alGet s.connected p with
  | none => left; rfl
  | some conns => right; exact ⟨conns, rfl, rfl⟩

theorem on_dial_failure_connected (Msg : Type) (s : Behaviour Msg)
    (pid : Option PeerId) : (s.on_dial_failure pid).connected = s.connected := by
  cases pid with
  | none => rfl
  | some p =>
    unfold Behaviour.on_dial_failure
    cases hr : alRemove s.pending_outbound_messages p with
    | mk o pom => cases o <;> simp [hr]

theorem connectedInv_of_alSet_set {Msg : Type} {s : Behaviour Msg} {p : PeerId}
    {conns conns' : List Connection} (h : ConnectedInv s)
    (hc : alGet s.connected p = some conns) (hne : conns' ≠ [])
    {t : Behaviour Msg} (ht : t.connected = alSet s.connected p conns') :
    ConnectedInv t := by
  obtain ⟨hk, hv⟩ := h
  constructor
  · rw [ht, keys_alSet]
    exact hk
  · intro e he
    rw [ht] at he
    rcases mem_alSet he with heq | hm
    · rw [heq]
      exact hne
    · exact hv e hm

theorem connectedInv_step {Msg : Type} (s s' : Behaviour Msg) (op : Op Msg)
    (h : ConnectedInv s) (hs : s.step op = some s') : ConnectedInv s' := by
  cases op with
  | send p m =>
    simp only [Behaviour.step, Option.some.injEq] at hs
    subst hs
    rcases send_message_connected_cases Msg s p m with hcon | ⟨conns, conns', hc, hne, hne', hcon⟩
    · obtain ⟨hk, hv⟩ := h
      exact ⟨by rw [hcon]; exact hk, fun e he => hv e (by rw [hcon] at he; exact he)⟩
    · exact connectedInv_of_alSet_set h hc hne' hcon
  | connectionEstablished p c a =>
    simp only [Behaviour.step, Option.some.injEq] at hs
    subst hs
    obtain ⟨conn, hcon⟩ := on_connection_established_connected Msg s
      (Handler.new p s.protocol s.config) p c a
    obtain ⟨hk, hv⟩ := h
    constructor
    · rw [hcon]
      exact keys_alUpdate_nodup _ _ _ _ hk
    · intro e he
      rw [hcon] at he
      rcases mem_alUpdate he with ⟨w, hw⟩ | hm
      · rw [hw]
        simp
      · exact hv e hm
  | connectionClosed p c r =>
    simp only [Behaviour.step] at hs
    obtain ⟨conns, conn, rest, hc, hr, hcon⟩ :=
      on_connection_closed_connected Msg s p c r s' hs
    by_cases he : rest.isEmpty = true
    · rw [he] at hcon
      simp only [if_true] at hcon
      obtain ⟨hk, hv⟩ := h
      constructor
      · rw [hcon]
        exact (keys_alRemove_sublist s.connected p).nodup hk
      · intro e hme
        rw [hcon] at hme
        exact hv e (mem_alRemove hme)
    · have hne : rest ≠ [] := by
        cases rest with
        | nil => exact absurd rfl he
        | cons x xs => exact List.cons_ne_nil x xs
      rw [Bool.not_eq_true] at he
      rw [he] at hcon
      simp only [Bool.false_eq_true, if_false] at hcon
      exact connectedInv_of_alSet_set h hc hne hcon
  | addressChanged p c a =>
    simp only [Behaviour.step, Option.some.injEq] at hs
    subst hs
    rcases on_address_change_connected Msg s p c a with hcon | ⟨conns, hc, hcon⟩
    · obtain ⟨hk, hv⟩ := h
      exact ⟨by rw [hcon]; exact hk, fun e he => hv e (by rw [hcon] at he; exact he)⟩
    · have hne : conns ≠ [] := h.2 (p, conns) (alGet_mem hc)
      have hne' : setAddr conns c a ≠ [] := by
        intro hnil
        exact hne ((setAddr_eq_nil_iff conns c a).mp hnil)
      exact connectedInv_of_alSet_set h hc hne' hcon
  | dialFailure pid =>
    simp only [Behaviour.step, Option.some.injEq] at hs
    subst hs
    obtain ⟨hk, hv⟩ := h
    have hcon := on_dial_failure_connected Msg s pid
    exact ⟨by rw [hcon]; exact hk, fun e he => hv e (by rw [hcon] at he; exact he)⟩

theorem connectedInv_run {Msg : Type} (s : Behaviour Msg) (ops : List (Op Msg))
    (s' : Behaviour Msg) (h : ConnectedInv s) (hs : s.run ops = some s') :
    ConnectedInv s' := by
  induction ops generalizing s with
  | nil =>
    simp only [Behaviour.run, Option.some.injEq] at hs
    subst hs
    exact h
  | cons op ops ih =>
    simp only [Behaviour.run] at hs
    cases hstep : s.step op with
    | none => rw [hstep] at hs; simp at hs
    | some t =>
      rw [hstep] at hs
      simp only [] at hs
      exact ih t (connectedInv_step s t op h hstep) hs

/-- C7: in every router state reachable from a fresh router by any sequence
of send, connection-established, connection-closed, address-changed and
dial-failure operations, every peer entry of the peer/connection map has a
non-empty connection list; and processing connection-closed for the last
connection of a peer removes the peer entry from the map entirely. -/
theorem reachable_connected_nonempty (ops : List (Op Nat)) (s : Behaviour Nat)
    (h : (Behaviour.new 0 Config.default : Behaviour Nat).run ops = some s) :
    (∀ p conns, alGet s.connected p = some conns → conns ≠ []) ∧
    (∀ p cid r s' conn, alGet s.connected p = some [conn] →
      s.on_connection_closed p cid r = some s' → alGet s'.connected p = none) := by
  have hinv : ConnectedInv s :=
    connectedInv_run (Behaviour.new 0 Config.default) ops s
      ⟨by simp [Behaviour.new], by simp [Behaviour.new]⟩ h
  constructor
  · intro p conns hc
    exact hinv.2 (p, conns) (alGet_mem hc)
  · intro p cid r s' conn hc hs
    obtain ⟨conns2, conn2, rest2, hc2, hr2, hcon⟩ :=
      on_connection_closed_connected Nat s p cid r s' hs
    rw [hc] at hc2
    have hceq : conns2 = [conn] := by
      injection hc2.symm
    subst hceq
    by_cases hid : conn.id = cid
    · have hr2' : removeConnById [conn] cid = some (conn, []) := by
        simp [removeConnById, hid]
      rw [hr2'] at hr2
      have hp := Option.some.inj hr2
      injection hp with ha hb
      subst hb
      simp at hcon
      rw [hcon]
      exact alGet_alRemove_self s.connected p hinv.1
    · simp [removeConnById, hid] at hr2

/-- Closed witness for `reachable_connected_nonempty`. -/
theorem reachable_connected_nonempty_witness :
    ([Connection.new 10 none] : List Connection) ≠ [] ∧
    alGet ([] : List (PeerId × List Connection)) 1 = none := by
  constructor
  · exact (reachable_connected_nonempty [Op.connectionEstablished 1 10 none]
      ⟨0, Config.default, [], [], [(1, ⟨10, none, []⟩ :: [])], 0⟩ (by decide)).1
      1 [Connection.new 10 none] (by decide)
  · exact (reachable_connected_nonempty [Op.connectionEstablished 1 10 none]
      ⟨0, Config.default, [], [], [(1, ⟨10, none, []⟩ :: [])], 0⟩ (by decide)).2
      1 10 0 ⟨0, Config.default, [], [], [], 0⟩ (Connection.new 10 none)
      (by decide) (by decide)

/-! General round-trip facts supporting the codec claims: with any
serializer/deserializer pair where the deserializer consumes the whole
payload it reads back, the bincode framing round-trips every message whose
payload fits the maximum, while the prost framing rejects every such
message with the bytes-remaining error. -/

theorem u32be_roundtrip (n : Nat) (h : n < 2 ^ 32) :
    u32beToNat (u32beOfNat n) = n := by
  simp only [u32beOfNat, u32beToNat]
  omega

theorem bincode_roundtrip (Msg : Type) (ser : Msg → List Nat)
    (deser : List Nat → Except Unit (Msg × Nat)) (m : Msg) (proto : Nat)
    (hgood : deser (ser m) = .ok (m, (ser m).length))
    (hle : (ser m).length ≤ MAX_MESSAGE_SIZE) (bytes : List Nat)
    (henc : encodeTo ser m = .ok bytes) :
    bincodeDecodeFrom deser proto bytes = .ok { message := m, protocol := proto } := by
  have hif : ¬((ser m).length > MAX_MESSAGE_SIZE) := not_lt.mpr hle
  unfold encodeTo at henc
  rw [if_neg hif] at henc
  have hbytes : bytes = u32beOfNat (ser m).length ++ ser m :=
    (Except.ok.inj henc).symm
  subst hbytes
  have hlen4 : (u32beOfNat (ser m).length).length = 4 := by
    simp [u32beOfNat]
  have hlt32 : (ser m).length < 2 ^ 32 :=
    lt_of_le_of_lt hle (by norm_num [MAX_MESSAGE_SIZE])
  have htake : (u32beOfNat (ser m).length ++ ser m).take 4 = u32beOfNat (ser m).length := by
    rw [← hlen4, List.take_left]
  have hdrop : (u32beOfNat (ser m).length ++ ser m).drop 4 = ser m := by
    rw [← hlen4, List.drop_left]
  unfold bincodeDecodeFrom
  rw [if_neg (by simp [hlen4])]
  rw [htake, u32be_roundtrip _ hlt32, if_neg hif, hdrop,
    if_neg (by simp), List.take_length, hgood]
  simp

theorem prost_roundtrip_always_fails (Msg : Type) (ser : Msg → List Nat)
    (deser : List Nat → Except Unit (Msg × Nat)) (m : Msg) (proto : Nat)
    (hgood : deser (ser m) = .ok (m, (ser m).length))
    (hle : (ser m).length ≤ MAX_MESSAGE_SIZE) (bytes : List Nat)
    (henc : encodeTo ser m = .ok bytes) :
    prostDecodeFrom deser proto bytes = .error IoError.bytesRemaining := by
  have hif : ¬((ser m).length > MAX_MESSAGE_SIZE) := not_lt.mpr hle
  unfold encodeTo at henc
  rw [if_neg hif] at henc
  have hbytes : bytes = u32beOfNat (ser m).length ++ ser m :=
    (Except.ok.inj henc).symm
  subst hbytes
  have hlen4 : (u32beOfNat (ser m).length).length = 4 := by
    simp [u32beOfNat]
  have hlt32 : (ser m).length < 2 ^ 32 :=
    lt_of_le_of_lt hle (by norm_num [MAX_MESSAGE_SIZE])
  have htake : (u32beOfNat (ser m).length ++ ser m).take 4 = u32beOfNat (ser m).length := by
    rw [← hlen4, List.take_left]
  have hdrop : (u32beOfNat (ser m).length ++ ser m).drop 4 = ser m := by
    rw [← hlen4, List.drop_left]
  unfold prostDecodeFrom
  rw [if_neg (by simp [hlen4])]
  rw [htake, u32be_roundtrip _ hlt32, if_neg hif, hdrop,
    if_neg (by simp), List.take_length, hgood]
  simp

end LibP2PMessaging
